import Mathlib

/-!
# The PoSt scheduler of `extern/sector-storage/sched_post.go`

A shallow embedding of `poStScheduler`: the worker map, the candidate selector
`readyWorkers`, the dispatch protocol `Schedule`, the per-worker monitor
`watch` and the drain `schedClose`, followed by the properties proved about
them.

Conventions of the embedding.

* The Go map `map[storiface.WorkerID]*workerHandle` is an association list with
  distinct keys (`AList`).  Every registered id owns its handle object, so the
  map stores the handle's fields; `ps.workers[wid].enabled = b` rewrites the
  entry of `wid` and is a nil dereference when `wid` is absent.
* Code that runs with `ps.lk` released (a `cond.Wait`, the remote action, the
  drain wait) is interleaved with other goroutines.  What they do in that
  window is an explicit input of the operation.
* Channel operations, `go` statements and condition-variable calls are
  recorded as events.
-/

namespace PoSt

/-! ## Data model -/

/-- The type `storiface.WorkerID` (a UUID); only equality is used. -/
abbrev WorkerID := Nat

/-- The type `sealtasks.TaskType`. -/
abbrev TaskType := Nat

/-- The type `abi.RegisteredSealProof`. -/
abbrev RegisteredSealProof := Nat

/-- The worker RPC capability `Worker`; the scheduler only passes it on. -/
abbrev WorkerRpc := Nat

/-- Modelled from the spec: `storiface.Resources` is declared outside
`sched_post.go`; a requirement is "at minimum CPU count, RAM, GPU need". -/
structure Resources where
  cpu : Nat
  ram : Nat
  gpu : Nat
deriving DecidableEq, Repr

/-- Modelled from the spec: `storiface.WorkerInfo` is declared outside
`sched_post.go`; it carries the declared capacity, and `tag` selects the
worker's resource table. -/
structure WorkerInfo where
  capacity : Resources
  tag : Nat
deriving DecidableEq, Repr

/-- Modelled from the spec: `activeResources` is declared outside
`sched_post.go`; it is the per-worker accounting of capacity in use. -/
structure activeResources where
  used : Resources
deriving DecidableEq, Repr

/-- The struct `workerHandle`, with the fields `sched_post.go` touches.  The
channels `closingMgr` and `closedMgr` are one-shot: `true` means closed. -/
structure workerHandle where
  workerRpc : WorkerRpc
  info : WorkerInfo
  active : activeResources
  enabled : Bool
  closingMgr : Bool
  closedMgr : Bool
deriving DecidableEq, Repr

/-- The collaborators `sched_post.go` calls but does not define: the resource
table `info.Resources.ResourceSpec`, the admission gate
`active.canHandleRequest`, and the accounting `add`/`free` that
`active.withResources` performs around its callback.  They are parameters of
the embedding; note that the gate is handed `active`, the requirement, the id
and `info`, never the handle's `enabled` field. -/
structure Externals where
  ResourceSpec : WorkerInfo → RegisteredSealProof → TaskType → Resources
  canHandleRequest : activeResources → Resources → WorkerID → WorkerInfo → Bool
  add : activeResources → WorkerInfo → Resources → activeResources
  free : activeResources → WorkerInfo → Resources → activeResources

/-- The worker map `map[storiface.WorkerID]*workerHandle`. -/
abbrev WorkerMap := AList (fun _ : WorkerID => workerHandle)

/-- The struct `poStScheduler`; `lk` and `cond` appear as events. -/
structure poStScheduler where
  workers : WorkerMap
  postType : TaskType

/-- The constructor `newPoStScheduler`. -/
def newPoStScheduler (t : TaskType) : poStScheduler :=
  { workers := ∅, postType := t }

/-- The struct `candidateWorker`. -/
structure candidateWorker where
  id : WorkerID
  res : Resources
deriving DecidableEq, Repr

/-! ## `rand.Shuffle` -/

/-- The swap callback of `readyWorkers`:
`accepts[i], accepts[j] = accepts[j], accepts[i]`. -/
def swap {α : Type} (l : List α) (i j : Nat) : List α :=
  match l[i]?, l[j]? with
  | some a, some b => (l.set i b).set j a
  | _, _ => l

/-- The loop of `rand.Shuffle`: for `i` from `n - 1` down to `1`, swap
positions `i` and `j`, with `j` drawn from `[0, i]`; `rnd i` is the raw draw
at position `i`. -/
def shuffleFrom {α : Type} (rnd : Nat → Nat) : Nat → List α → List α
  | 0, l => l
  | i + 1, l => shuffleFrom rnd i (swap l (i + 1) (rnd (i + 1) % (i + 2)))

/-- The call `rand.Shuffle(len(accepts), swap)`. -/
def Shuffle {α : Type} (rnd : Nat → Nat) (l : List α) : List α :=
  shuffleFrom rnd (l.length - 1) l

/-! ## Candidate selector -/

/-- The body of the `for wid, wr := range ps.workers` loop of `readyWorkers`:
the workers the gate accepts, in iteration order. -/
def accepts (ext : Externals) (postType : TaskType) (spt : RegisteredSealProof) :
    List (Sigma fun _ : WorkerID => workerHandle) → List candidateWorker
  | [] => []
  | ⟨wid, wr⟩ :: rest =>
    let needRes := ext.ResourceSpec wr.info spt postType
    if ext.canHandleRequest wr.active needRes wid wr.info then
      { id := wid, res := needRes } :: accepts ext postType spt rest
    else
      accepts ext postType spt rest

/-- The method `poStScheduler.readyWorkers`. -/
def readyWorkers (ext : Externals) (ps : poStScheduler) (spt : RegisteredSealProof)
    (rnd : Nat → Nat) : Bool × List candidateWorker :=
  let acc := Shuffle rnd (accepts ext ps.postType spt ps.workers.entries)
  (acc.length != 0, acc)

/-! ## Registration and removal -/

/-- Errors that `Schedule` can return: its own
`xerrors.Errorf("can't find %s post worker", ps.postType)`, or whatever the
caller's action returned. -/
inductive GoError where
  | cantFindPostWorker (postType : TaskType)
  | other (code : Nat)
deriving DecidableEq, Repr

/-- The type `WorkerAction`: the caller's action, run against a worker's RPC
capability; `none` is a nil error. -/
abbrev WorkerAction := WorkerRpc → Option GoError

/-- Observable effects other than updates of the worker map. -/
inductive Event where
  /-- The statement `go ps.watch(wid, w)`. -/
  | spawnWatch (wid : WorkerID) (w : workerHandle)
  /-- A call of `ps.cond.Broadcast()`. -/
  | condBroadcast
  /-- A call of `ps.cond.Wait()`. -/
  | condWait
  /-- The gate reserved `res` on worker `wid`. -/
  | reserve (wid : WorkerID) (res : Resources)
  /-- The action was invoked against `rpc`. -/
  | invoke (rpc : WorkerRpc)
  /-- The gate released `res` on worker `wid`. -/
  | release (wid : WorkerID) (res : Resources)
  /-- The statement `close(w.closingMgr)`. -/
  | closeClosing (wid : WorkerID)
  /-- The statement `close(worker.closedMgr)`. -/
  | closeClosed (wid : WorkerID)
  /-- The drain wait of `workerCleanup` received from `closedMgr`. -/
  | drained (wid : WorkerID)
  /-- The drain wait of `workerCleanup` ended on `time.After(time.Second)`. -/
  | drainTimeout (wid : WorkerID)
deriving DecidableEq, Repr

/-- Result of `MaybeAddWorker`: the returned boolean, the scheduler afterwards
and the events of the call. -/
structure AddResult where
  ok : Bool
  ps : poStScheduler
  events : List Event

/-- The method `poStScheduler.MaybeAddWorker`; `tasks` is the key set of
`map[sealtasks.TaskType]struct{}`. -/
def MaybeAddWorker (ps : poStScheduler) (wid : WorkerID) (tasks : List TaskType)
    (w : workerHandle) : AddResult :=
  if ps.postType ∈ tasks then
    { ok := true
      ps := { ps with workers := ps.workers.insert wid w }
      events := [Event.spawnWatch wid w, Event.condBroadcast] }
  else
    { ok := false, ps := ps, events := [] }

/-- The monitors started by a list of events. -/
def spawned : List Event → List (WorkerID × workerHandle)
  | [] => []
  | Event.spawnWatch wid w :: rest => (wid, w) :: spawned rest
  | _ :: rest => spawned rest

/-- The method `poStScheduler.delWorker`: the removed handle (`none` is the
nil pointer) and the scheduler afterwards. -/
def delWorker (ps : poStScheduler) (wid : WorkerID) : Option workerHandle × poStScheduler :=
  match ps.workers.lookup wid with
  | some wh => (some wh, { ps with workers := ps.workers.erase wid })
  | none => (none, ps)

/-- The loop `for _, w := range ps.workers` of `CanSched`. -/
def canSchedLoop : List (Sigma fun _ : WorkerID => workerHandle) → Bool
  | [] => false
  | ⟨_, w⟩ :: rest => if w.enabled then true else canSchedLoop rest

/-- The method `poStScheduler.CanSched`: the returned boolean and the
scheduler afterwards. -/
def CanSched (ps : poStScheduler) : Bool × poStScheduler :=
  if ps.workers.entries.length == 0 then (false, ps)
  else (canSchedLoop ps.workers.entries, ps)

/-- The assignment `ps.workers[wid].enabled = b`; `none` is the nil
dereference on an id that is not registered. -/
def setEnabled (ps : poStScheduler) (wid : WorkerID) (b : Bool) : Option poStScheduler :=
  match ps.workers.lookup wid with
  | some w => some { ps with workers := ps.workers.insert wid { w with enabled := b } }
  | none => none

/-- The method `poStScheduler.disable`. -/
def disable (ps : poStScheduler) (wid : WorkerID) : Option poStScheduler :=
  setEnabled ps wid false

/-- The method `poStScheduler.enable`. -/
def enable (ps : poStScheduler) (wid : WorkerID) : Option poStScheduler :=
  setEnabled ps wid true

/-! ## Dispatch -/

/-- One return of `ps.cond.Wait()`: what other goroutines did to the scheduler
while the caller was parked, and the draws of the reshuffle that follows. -/
structure Wake where
  update : poStScheduler → poStScheduler
  rnd : Nat → Nat

/-- The surroundings of one `Schedule` call: the draws of the first shuffle,
the wake-ups the caller receives while parked, and what other goroutines do
while the action runs with `ps.lk` released. -/
structure SchedEnv where
  rnd : Nat → Nat
  wakes : List Wake
  during : poStScheduler → poStScheduler

/-- How a `Schedule` call ends. -/
inductive Status where
  /-- The call returned `err`. -/
  | returned (err : Option GoError)
  /-- The call is parked in `ps.cond.Wait()` and is never woken again. -/
  | parked
  /-- The call dereferenced nil or indexed an empty slice. -/
  | panicked
deriving DecidableEq, Repr

/-- A `Schedule` call: how it ended, its events in order, and the scheduler
afterwards. -/
structure Run where
  status : Status
  trace : List Event
  ps : poStScheduler

/-- The accounting update of `withResources` on the handle registered under
`wid`; a handle that has left the map is not part of the scheduler state. -/
def account (ps : poStScheduler) (wid : WorkerID)
    (f : activeResources → activeResources) : poStScheduler :=
  match ps.workers.lookup wid with
  | some w => { ps with workers := ps.workers.insert wid { w with active := f w.active } }
  | none => ps

/-- Modelled from the spec: `activeResources.withResources` is defined outside
`sched_post.go`.  The gate "atomically reserves/releases capacity around an
action": it reserves, runs the callback once, releases, and returns the
callback's result.  The callback is the closure of `Schedule`, which releases
`ps.lk`, runs `work(ctx, worker.workerRpc)` and takes the lock again. -/
def withResources (ext : Externals) (ps : poStScheduler) (wid : WorkerID)
    (worker : workerHandle) (res : Resources) (work : WorkerAction)
    (during : poStScheduler → poStScheduler) : Run :=
  let ps1 := account ps wid (fun a => ext.add a worker.info res)
  let err := work worker.workerRpc
  let ps2 := during ps1
  let ps3 := account ps2 wid (fun a => ext.free a worker.info res)
  { status := Status.returned err
    trace := [Event.reserve wid res, Event.invoke worker.workerRpc, Event.release wid res]
    ps := ps3 }

/-- The tail of `Schedule` after the wait loop: `selected := candidates[0]`,
`worker := ps.workers[selected.id]`, the call of `withResources`, and the
`ps.cond.Broadcast()` that runs deferred. -/
def dispatch (ext : Externals) (ps : poStScheduler) (candidates : List candidateWorker)
    (work : WorkerAction) (during : poStScheduler → poStScheduler) : Run :=
  match candidates with
  | [] => { status := Status.panicked, trace := [Event.condBroadcast], ps := ps }
  | selected :: _ =>
    match ps.workers.lookup selected.id with
    | none => { status := Status.panicked, trace := [Event.condBroadcast], ps := ps }
    | some worker =>
      let r := withResources ext ps selected.id worker selected.res work during
      { r with trace := r.trace ++ [Event.condBroadcast] }

/-- The loop `for !canDo` of `Schedule`, followed by the dispatch. -/
def waitLoop (ext : Externals) (primary : Bool) (spt : RegisteredSealProof)
    (work : WorkerAction) (during : poStScheduler → poStScheduler) :
    List Wake → poStScheduler → Bool × List candidateWorker → Run
  | _, ps, (true, candidates) => dispatch ext ps candidates work during
  | [], ps, (false, _) =>
    if primary then
      { status := Status.parked, trace := [Event.condWait], ps := ps }
    else
      { status := Status.returned (some (GoError.cantFindPostWorker ps.postType))
        trace := [], ps := ps }
  | wk :: rest, ps, (false, _) =>
    if primary then
      let ps1 := wk.update ps
      let r := waitLoop ext primary spt work during rest ps1 (readyWorkers ext ps1 spt wk.rnd)
      { r with trace := Event.condWait :: r.trace }
    else
      { status := Status.returned (some (GoError.cantFindPostWorker ps.postType))
        trace := [], ps := ps }

/-- The method `poStScheduler.Schedule`. -/
def Schedule (ext : Externals) (ps : poStScheduler) (primary : Bool)
    (spt : RegisteredSealProof) (work : WorkerAction) (env : SchedEnv) : Run :=
  if ps.workers.entries.length == 0 then
    { status := Status.returned (some (GoError.cantFindPostWorker ps.postType))
      trace := [], ps := ps }
  else
    waitLoop ext primary spt work env.during env.wakes ps (readyWorkers ext ps spt env.rnd)

/-- The scheduler as the parked caller finds it after a sequence of wake-ups. -/
def afterWakes (ps : poStScheduler) (wakes : List Wake) : poStScheduler :=
  wakes.foldl (fun s wk => wk.update s) ps

/-- The wake-up caused by a `MaybeAddWorker` call of another goroutine. -/
def addWake (wid : WorkerID) (tasks : List TaskType) (w : workerHandle)
    (rnd : Nat → Nat) : Wake :=
  { update := fun s => (MaybeAddWorker s wid tasks w).ps, rnd := rnd }

/-- The number of `ps.cond.Wait()` calls in a trace. -/
def waits (t : List Event) : Nat :=
  t.count Event.condWait

/-- The RPC handles the action was invoked against, in order. -/
def invocations : List Event → List WorkerRpc
  | [] => []
  | Event.invoke rpc :: rest => rpc :: invocations rest
  | _ :: rest => invocations rest

/-- The reservations made, in order. -/
def reservations : List Event → List (WorkerID × Resources)
  | [] => []
  | Event.reserve wid res :: rest => (wid, res) :: reservations rest
  | _ :: rest => reservations rest

/-! ## Liveness monitor -/

/-- Result of `worker.workerRpc.Session(sctx)`: an error, or a session id. -/
inductive Probe where
  | failed
  | session (curSes : WorkerID)
deriving DecidableEq, Repr

/-- Which case of the `select` after a failed probe fires: the heartbeat tick
or the receive from `worker.closingMgr`. -/
inductive Signal where
  | tick
  | closing
deriving DecidableEq, Repr

/-- What the surroundings feed one transition of the monitor: the outcome of
the probe and the case the `select` takes; a transition reads the one it
needs. -/
structure MonitorInput where
  probe : Probe
  signal : Signal
deriving DecidableEq, Repr

/-- Control points of `watch`: about to probe, parked in the `select` after a
failed probe, and returned. -/
inductive MonitorState where
  | probing
  | selecting
  | terminated
deriving DecidableEq, Repr

/-- One transition of a monitor: its next control point, the scheduler
afterwards, and the events. -/
structure MonitorStep where
  next : MonitorState
  ps : poStScheduler
  events : List Event

/-- The deferred calls of `watch`, run on every `return`: `ps.delWorker(wid)`
and then `close(worker.closedMgr)`. -/
def watchExit (ps : poStScheduler) (wid : WorkerID) : MonitorStep :=
  { next := MonitorState.terminated
    ps := (delWorker ps wid).2
    events := [Event.closeClosed wid] }

/-- One transition of `poStScheduler.watch` for the worker registered under
`wid`; `none` is the nil dereference of `disable`/`enable` on an id that is
not in the map. -/
def watchStep (ps : poStScheduler) (wid : WorkerID) :
    MonitorState → MonitorInput → Option MonitorStep
  | MonitorState.probing, inp =>
    match inp.probe with
    | Probe.failed =>
      (disable ps wid).map fun ps1 =>
        { next := MonitorState.selecting, ps := ps1, events := [] }
    | Probe.session curSes =>
      if curSes != wid then
        some (watchExit ps wid)
      else
        (enable ps wid).map fun ps1 =>
          { next := MonitorState.probing, ps := ps1, events := [] }
  | MonitorState.selecting, inp =>
    match inp.signal with
    | Signal.tick => some { next := MonitorState.probing, ps := ps, events := [] }
    | Signal.closing => some (watchExit ps wid)
  | MonitorState.terminated, _ =>
    some { next := MonitorState.terminated, ps := ps, events := [] }

/-- The method `poStScheduler.watch` run on a finite sequence of inputs, from
a given control point. -/
def watch (wid : WorkerID) : List MonitorInput → MonitorState → poStScheduler →
    Option (MonitorState × poStScheduler)
  | [], st, ps => some (st, ps)
  | inp :: rest, st, ps =>
    match watchStep ps wid st inp with
    | none => none
    | some s => watch wid rest s.next s.ps

/-! ## Shutdown -/

/-- What the surroundings contribute to one drain wait of `workerCleanup`,
which runs with `ps.lk` released: `update` is everything other goroutines do
to the scheduler in that window (monitors running `delWorker`, calls of
`MaybeAddWorker`, `enable`, `disable`); `closed` tells whether the receive
from `w.closedMgr` wins against `time.After(time.Second)`; `produce` lists the
ids which, if they get registered in this window, the running `range` will
still produce (Go leaves that open for entries created during iteration). -/
structure DrainWindow where
  update : poStScheduler → poStScheduler
  closed : Bool
  produce : List WorkerID

/-- A drain wait during which no other goroutine acts and the timer fires. -/
def quietWindow : DrainWindow :=
  { update := id, closed := false, produce := [] }

/-- A drain wait during which the monitor of `wid` returns, running its
deferred `delWorker`; `closed` tells whether it is the channel waited on that
it closes. -/
def exitWindow (wid : WorkerID) (closed : Bool) : DrainWindow :=
  { update := fun s => (watchExit s wid).ps, closed := closed, produce := [] }

/-- The first `select` of `workerCleanup`: close `w.closingMgr` unless it is
closed already.  The flag is read and written on the registered handle; for a
handle that has left the map only the event remains. -/
def signalClosing (ps : poStScheduler) (wid : WorkerID) (w : workerHandle) :
    poStScheduler × List Event :=
  if ((ps.workers.lookup wid).getD w).closingMgr then (ps, [])
  else
    match ps.workers.lookup wid with
    | some h =>
      ({ ps with workers := ps.workers.insert wid { h with closingMgr := true } },
        [Event.closeClosing wid])
    | none => (ps, [Event.closeClosing wid])

/-- The second `select` of `workerCleanup`, between `ps.lk.Unlock()` and
`ps.lk.Lock()`: receive from `w.closedMgr`, or give up after one second.  The
scheduler that comes back is the one the other goroutines left. -/
def awaitClosed (ps : poStScheduler) (wid : WorkerID) (w : workerHandle)
    (win : DrainWindow) : poStScheduler × List Event :=
  if ((ps.workers.lookup wid).getD w).closedMgr || win.closed then
    (win.update ps, [Event.drained wid])
  else
    (win.update ps, [Event.drainTimeout wid])

/-- The method `poStScheduler.workerCleanup`. -/
def workerCleanup (ps : poStScheduler) (wid : WorkerID) (w : workerHandle)
    (win : DrainWindow) : poStScheduler × List Event :=
  let r := signalClosing ps wid w
  let r2 := awaitClosed r.1 wid w win
  (r2.1, r.2 ++ r2.2)

/-- The next entry a `range` over the live map produces: the first id still to
come that is registered now, with its handle and the ids left after it.  An
entry removed before it is reached is not produced. -/
def nextLive (ps : poStScheduler) :
    List WorkerID → Option (WorkerID × workerHandle × List WorkerID)
  | [] => none
  | i :: rest =>
    match ps.workers.lookup i with
    | some w => some (i, w, rest)
    | none => nextLive ps rest

/-- The ids a window adds to those the `range` has still to produce: the ones
of `produce` that were not registered before the window, are registered after
it, and are not awaited already. -/
def created (before after : poStScheduler) (produce rest : List WorkerID) : List WorkerID :=
  produce.filter fun k =>
    !(before.workers.lookup k).isSome && (after.workers.lookup k).isSome && !rest.contains k

/-- The rest of the loop of `schedClose` once no other goroutine acts any
more: every id still to come and still registered gets its `workerCleanup`,
whose wait ends on the timer unless `closedMgr` is closed already. -/
def drainQuiet : List WorkerID → poStScheduler → poStScheduler × List Event
  | [], ps => (ps, [])
  | i :: rest, ps =>
    match ps.workers.lookup i with
    | some w =>
      let r := workerCleanup ps i w quietWindow
      let r2 := drainQuiet rest r.1
      (r2.1, r.2 ++ r2.2)
    | none => drainQuiet rest ps

/-- The loop `for i, w := range ps.workers` of `schedClose` over the live map.
`todo` holds the ids the `range` has still to produce; each produced entry
uses up one window of the surroundings, and after the last window nobody else
acts. -/
def rangeLoop : List DrainWindow → List WorkerID → poStScheduler →
    poStScheduler × List Event
  | [], todo, ps => drainQuiet todo ps
  | win :: wins, todo, ps =>
    match nextLive ps todo with
    | none => (ps, [])
    | some (i, w, rest) =>
      let r := workerCleanup ps i w win
      let r2 := rangeLoop wins (rest ++ created ps r.1 win.produce rest) r.1
      (r2.1, r.2 ++ r2.2)

/-- The method `poStScheduler.schedClose`.  The order in which the `range`
starts out is a shuffle of the registered ids with draws `rnd`; `env` holds
what the other goroutines do during the successive drain waits. -/
def schedClose (ps : poStScheduler) (rnd : Nat → Nat) (env : List DrainWindow) :
    poStScheduler × List Event :=
  rangeLoop env (Shuffle rnd ps.workers.keys) ps

/-- Modelled from the spec: a concrete admission gate.  A requirement "fits in
the worker's remaining capacity" when use plus need stays within the declared
capacity in each of CPU, RAM and GPU; every task needs one CPU and one unit of
RAM; reserving adds the need to the use and releasing subtracts it. -/
def capacityGate : Externals where
  ResourceSpec := fun _ _ _ => { cpu := 1, ram := 1, gpu := 0 }
  canHandleRequest := fun a need _ info =>
    decide (a.used.cpu + need.cpu ≤ info.capacity.cpu) &&
    decide (a.used.ram + need.ram ≤ info.capacity.ram) &&
    decide (a.used.gpu + need.gpu ≤ info.capacity.gpu)
  add := fun a _ need =>
    { used := { cpu := a.used.cpu + need.cpu, ram := a.used.ram + need.ram,
                gpu := a.used.gpu + need.gpu } }
  free := fun a _ need =>
    { used := { cpu := a.used.cpu - need.cpu, ram := a.used.ram - need.ram,
                gpu := a.used.gpu - need.gpu } }

/-- A handle with `cpu` cores and `cpu` units of RAM, nothing in use. -/
def idleHandle (rpc : WorkerRpc) (cpu : Nat) (enabled : Bool) : workerHandle :=
  { workerRpc := rpc
    info := { capacity := { cpu := cpu, ram := cpu, gpu := 0 }, tag := 0 }
    active := { used := { cpu := 0, ram := 0, gpu := 0 } }
    enabled := enabled
    closingMgr := false
    closedMgr := false }

/-- A scheduler for task type `7` with the given workers registered in order. -/
def schedulerOf (ws : List (WorkerID × workerHandle)) : poStScheduler :=
  ws.foldl (fun ps e => (MaybeAddWorker ps e.1 [7] e.2).ps) (newPoStScheduler 7)

/-- An environment with no wake-ups and no interference. -/
def quietEnv : SchedEnv :=
  { rnd := fun _ => 0, wakes := [], during := id }

/-! ## Lemmas on the shuffle and the candidate selector -/

theorem swap_perm {α : Type} (l : List α) (i j : Nat) : (swap l i j).Perm l := by
  classical
  unfold swap
  split
  · rename_i a b ha hb
    obtain ⟨hi, hia⟩ := List.getElem?_eq_some.mp ha
    obtain ⟨hj, hjb⟩ := List.getElem?_eq_some.mp hb
    rw [List.perm_iff_count]
    intro x
    rw [List.count_set _ _ _ _ (by simpa using hj), List.count_set _ _ _ _ hi]
    simp only [List.getElem_set, hia, hjb]
    have h1 := List.count_pos_iff.mpr (List.getElem_mem hi)
    have h2 := List.count_pos_iff.mpr (List.getElem_mem hj)
    rw [hia] at h1
    rw [hjb] at h2
    by_cases hij : i = j
    · subst hij
      have hab : a = b := by rw [← hia, ← hjb]
      subst hab
      simp only [if_true, beq_iff_eq]
      by_cases hx : a = x
      · subst hx
        simp only [if_true]
        omega
      · simp [hx]
    · simp only [hij, if_false, beq_iff_eq]
      by_cases hax : a = x <;> by_cases hbx : b = x
      · subst hax
        subst hbx
        simp only [if_true]
        omega
      · subst hax
        simp only [hbx, if_true, if_false]
        omega
      · subst hbx
        simp only [hax, if_true, if_false]
        omega
      · simp [hax, hbx]
  · exact List.Perm.refl _

theorem shuffleFrom_perm {α : Type} (rnd : Nat → Nat) (n : Nat) (l : List α) :
    (shuffleFrom rnd n l).Perm l := by
  induction n generalizing l with
  | zero => exact List.Perm.refl _
  | succ i ih => exact (ih _).trans (swap_perm _ _ _)

theorem Shuffle_perm {α : Type} (rnd : Nat → Nat) (l : List α) : (Shuffle rnd l).Perm l :=
  shuffleFrom_perm rnd _ l

theorem Shuffle_eq_nil {α : Type} (rnd : Nat → Nat) (l : List α) :
    Shuffle rnd l = [] ↔ l = [] := by
  constructor
  · intro h
    have := (Shuffle_perm rnd l).symm
    rw [h] at this
    exact List.Perm.eq_nil this
  · intro h
    subst h
    rfl

theorem mem_accepts (ext : Externals) (t : TaskType) (spt : RegisteredSealProof)
    (l : List (Sigma fun _ : WorkerID => workerHandle)) (c : candidateWorker) :
    c ∈ accepts ext t spt l ↔
      ∃ w, Sigma.mk c.id w ∈ l ∧ c.res = ext.ResourceSpec w.info spt t ∧
        ext.canHandleRequest w.active c.res c.id w.info = true := by
  induction l with
  | nil => simp [accepts]
  | cons e rest ih =>
    obtain ⟨wid, wr⟩ := e
    simp only [accepts]
    by_cases hg : ext.canHandleRequest wr.active (ext.ResourceSpec wr.info spt t) wid wr.info = true
    · rw [if_pos hg, List.mem_cons, ih]
      constructor
      · rintro (h | ⟨w, hw, hr, ha⟩)
        · subst h
          exact ⟨wr, List.mem_cons_self _ _, rfl, hg⟩
        · exact ⟨w, List.mem_cons_of_mem _ hw, hr, ha⟩
      · rintro ⟨w, hw, hr, ha⟩
        rcases List.mem_cons.mp hw with h | h
        · left
          cases c
          simp only [Sigma.mk.inj_iff, heq_eq_eq] at h
          obtain ⟨h1, h2⟩ := h
          subst h1
          subst h2
          simp only at hr
          rw [hr]
        · exact Or.inr ⟨w, h, hr, ha⟩
    · rw [if_neg hg, ih]
      constructor
      · rintro ⟨w, hw, hr, ha⟩
        exact ⟨w, List.mem_cons_of_mem _ hw, hr, ha⟩
      · rintro ⟨w, hw, hr, ha⟩
        rcases List.mem_cons.mp hw with h | h
        · exfalso
          simp only [Sigma.mk.inj_iff, heq_eq_eq] at h
          obtain ⟨h1, h2⟩ := h
          subst h1
          subst h2
          rw [hr] at ha
          exact hg ha
        · exact ⟨w, h, hr, ha⟩

/-- What `readyWorkers` computes: a candidate is listed exactly when its id is
registered and the gate accepts the requirement of its handle.  The handle's
`enabled` field plays no part. -/
theorem readyWorkers_mem_iff (ext : Externals) (ps : poStScheduler)
    (spt : RegisteredSealProof) (rnd : Nat → Nat) (c : candidateWorker) :
    c ∈ (readyWorkers ext ps spt rnd).2 ↔
      ∃ w, ps.workers.lookup c.id = some w ∧
        c.res = ext.ResourceSpec w.info spt ps.postType ∧
        ext.canHandleRequest w.active c.res c.id w.info = true := by
  simp only [readyWorkers]
  rw [(Shuffle_perm rnd _).mem_iff, mem_accepts]
  constructor
  · rintro ⟨w, hw, h⟩
    exact ⟨w, AList.mem_lookup_iff.mpr hw, h⟩
  · rintro ⟨w, hw, h⟩
    exact ⟨w, AList.mem_lookup_iff.mp hw, h⟩

theorem readyWorkers_fst (ext : Externals) (ps : poStScheduler)
    (spt : RegisteredSealProof) (rnd : Nat → Nat) :
    (readyWorkers ext ps spt rnd).1 = true ↔
      accepts ext ps.postType spt ps.workers.entries ≠ [] := by
  simp only [readyWorkers, bne_iff_ne, ne_eq, List.length_eq_zero, Shuffle_eq_nil]

theorem readyWorkers_of_no_accepts (ext : Externals) (ps : poStScheduler)
    (spt : RegisteredSealProof) (rnd : Nat → Nat)
    (h : accepts ext ps.postType spt ps.workers.entries = []) :
    readyWorkers ext ps spt rnd = (false, []) := by
  simp [readyWorkers, h, Shuffle, shuffleFrom]

theorem entries_length_ne_zero {ps : poStScheduler} (h : ps.workers.entries ≠ []) :
    (ps.workers.entries.length == 0) = false := by
  cases hl : ps.workers.entries with
  | nil => exact absurd hl h
  | cons _ _ => rfl

/-- Without a candidate a non-primary `Schedule` returns the error at once: no
wait, no reservation, no invocation, scheduler untouched.  This covers the
empty worker set and the worker set in which the gate rejects every worker. -/
theorem Schedule_nonprimary_no_candidate (ext : Externals) (ps : poStScheduler)
    (spt : RegisteredSealProof) (work : WorkerAction) (env : SchedEnv)
    (h : accepts ext ps.postType spt ps.workers.entries = []) :
    (Schedule ext ps false spt work env).status
        = Status.returned (some (GoError.cantFindPostWorker ps.postType)) ∧
      (Schedule ext ps false spt work env).trace = [] ∧
      (Schedule ext ps false spt work env).ps = ps := by
  unfold Schedule
  split
  · exact ⟨rfl, rfl, rfl⟩
  · rw [readyWorkers_of_no_accepts ext ps spt env.rnd h]
    cases env.wakes <;> simp [waitLoop]

/-! ## The claims -/

/-- C1, evaluated on the code: a registered worker whose `enabled` flag is
false and whose capacity fits the requirement is returned by `readyWorkers` as
a candidate, with the boolean true. -/
theorem readyWorkers_lists_disabled_worker :
    ((schedulerOf [(1, idleHandle 10 4 false)]).workers.lookup 1).map workerHandle.enabled
        = some false ∧
      readyWorkers capacityGate (schedulerOf [(1, idleHandle 10 4 false)]) 0 (fun _ => 0)
        = (true, [{ id := 1, res := { cpu := 1, ram := 1, gpu := 0 } }]) := by
  decide

/-- C2: on an empty worker set `Schedule` returns the "can't find post worker"
error whatever the primary flag, the proof type and the action are, without a
wait on the condition variable, without an invocation of the action, and with
the worker set still empty. -/
theorem Schedule_empty (ext : Externals) (ps : poStScheduler) (primary : Bool)
    (spt : RegisteredSealProof) (work : WorkerAction) (env : SchedEnv)
    (h : ps.workers = ∅) :
    (Schedule ext ps primary spt work env).status
        = Status.returned (some (GoError.cantFindPostWorker ps.postType)) ∧
      waits (Schedule ext ps primary spt work env).trace = 0 ∧
      invocations (Schedule ext ps primary spt work env).trace = [] ∧
      (Schedule ext ps primary spt work env).trace = [] ∧
      (Schedule ext ps primary spt work env).ps.workers = ∅ := by
  have h0 : (ps.workers.entries.length == 0) = true := by
    rw [h]
    rfl
  rw [Schedule, if_pos h0]
  exact ⟨rfl, rfl, rfl, rfl, h⟩

/-- The empty-set case at the freshly constructed scheduler, primary flag set. -/
theorem Schedule_empty_witness :
    (newPoStScheduler 7).workers = ∅ ∧
      (Schedule capacityGate (newPoStScheduler 7) true 0 (fun _ => none) quietEnv).status
        = Status.returned (some (GoError.cantFindPostWorker 7)) :=
  ⟨rfl, (Schedule_empty capacityGate (newPoStScheduler 7) true 0 (fun _ => none) quietEnv rfl).1⟩

/-- C3, evaluated on the code: with its only worker disabled but idle, a
non-primary `Schedule` returns no error; it reserves resources on the disabled
worker and invokes the action against it. -/
theorem Schedule_nonprimary_dispatches_to_disabled_worker :
    ((schedulerOf [(1, idleHandle 10 4 false)]).workers.lookup 1).map workerHandle.enabled
        = some false ∧
      (Schedule capacityGate (schedulerOf [(1, idleHandle 10 4 false)]) false 0
          (fun _ => none) quietEnv).status = Status.returned none ∧
      (Schedule capacityGate (schedulerOf [(1, idleHandle 10 4 false)]) false 0
          (fun _ => none) quietEnv).trace
        = [Event.reserve 1 { cpu := 1, ram := 1, gpu := 0 }, Event.invoke 10,
            Event.release 1 { cpu := 1, ram := 1, gpu := 0 }, Event.condBroadcast] := by
  decide

/-- C5: when `readyWorkers` reports a candidate at entry, `Schedule` picks the
head of the shuffled list, a worker that is registered and that the gate
accepted; it invokes the action exactly once, against that worker's RPC
handle, without waiting, and returns what the action returned. -/
theorem Schedule_invokes_first_candidate (ext : Externals) (ps : poStScheduler)
    (primary : Bool) (spt : RegisteredSealProof) (work : WorkerAction) (env : SchedEnv)
    (h : (readyWorkers ext ps spt env.rnd).1 = true) :
    ∃ c w, (readyWorkers ext ps spt env.rnd).2.head? = some c ∧
      ps.workers.lookup c.id = some w ∧
      c.res = ext.ResourceSpec w.info spt ps.postType ∧
      ext.canHandleRequest w.active c.res c.id w.info = true ∧
      (Schedule ext ps primary spt work env).status = Status.returned (work w.workerRpc) ∧
      invocations (Schedule ext ps primary spt work env).trace = [w.workerRpc] ∧
      reservations (Schedule ext ps primary spt work env).trace = [(c.id, c.res)] ∧
      waits (Schedule ext ps primary spt work env).trace = 0 := by
  have hacc := (readyWorkers_fst ext ps spt env.rnd).mp h
  have hne : ps.workers.entries ≠ [] := by
    intro he
    apply hacc
    rw [he]
    rfl
  cases hcs : (readyWorkers ext ps spt env.rnd).2 with
  | nil =>
    exfalso
    have h2 : (readyWorkers ext ps spt env.rnd).2 ≠ [] := by
      simp only [readyWorkers, ne_eq, Shuffle_eq_nil]
      exact hacc
    exact h2 hcs
  | cons c rest =>
    have hmem : c ∈ (readyWorkers ext ps spt env.rnd).2 := by
      rw [hcs]
      exact List.mem_cons_self _ _
    obtain ⟨w, hw, hr, hg⟩ := (readyWorkers_mem_iff ext ps spt env.rnd c).mp hmem
    have hpair : readyWorkers ext ps spt env.rnd = (true, c :: rest) := by
      rw [← h, ← hcs]
    refine ⟨c, w, rfl, hw, hr, hg, ?_⟩
    simp only [Schedule, entries_length_ne_zero hne, hpair, waitLoop, dispatch, hw,
      withResources]
    refine ⟨?_, rfl, rfl, rfl⟩
    simp

/-- One idle enabled worker and an action that fails: the failure comes back
as it is, after one invocation. -/
theorem Schedule_invokes_first_candidate_witness :
    (readyWorkers capacityGate (schedulerOf [(1, idleHandle 10 4 true)]) 0 quietEnv.rnd).1 = true ∧
      ∃ c w, (readyWorkers capacityGate (schedulerOf [(1, idleHandle 10 4 true)]) 0
          quietEnv.rnd).2.head? = some c ∧
        (schedulerOf [(1, idleHandle 10 4 true)]).workers.lookup c.id = some w ∧
        c.res = capacityGate.ResourceSpec w.info 0 (schedulerOf [(1, idleHandle 10 4 true)]).postType ∧
        capacityGate.canHandleRequest w.active c.res c.id w.info = true ∧
        (Schedule capacityGate (schedulerOf [(1, idleHandle 10 4 true)]) false 0
            (fun _ => some (GoError.other 3)) quietEnv).status
          = Status.returned ((fun _ => some (GoError.other 3)) w.workerRpc) ∧
        invocations (Schedule capacityGate (schedulerOf [(1, idleHandle 10 4 true)]) false 0
            (fun _ => some (GoError.other 3)) quietEnv).trace = [w.workerRpc] ∧
        reservations (Schedule capacityGate (schedulerOf [(1, idleHandle 10 4 true)]) false 0
            (fun _ => some (GoError.other 3)) quietEnv).trace = [(c.id, c.res)] ∧
        waits (Schedule capacityGate (schedulerOf [(1, idleHandle 10 4 true)]) false 0
            (fun _ => some (GoError.other 3)) quietEnv).trace = 0 :=
  ⟨by decide,
    Schedule_invokes_first_candidate capacityGate (schedulerOf [(1, idleHandle 10 4 true)])
      false 0 (fun _ => some (GoError.other 3)) quietEnv (by decide)⟩

/-- C6: `MaybeAddWorker` returns true exactly when the task-type set contains
the scheduler's task type.  On false nothing changes and no monitor is
started; on true the map sends the id to the given handle, every other id is
looked up as before, and exactly one monitor is started, for that id and
handle. -/
theorem MaybeAddWorker_spec (ps : poStScheduler) (wid : WorkerID) (tasks : List TaskType)
    (w : workerHandle) :
    ((MaybeAddWorker ps wid tasks w).ok = true ↔ ps.postType ∈ tasks) ∧
      ((MaybeAddWorker ps wid tasks w).ok = false →
        (MaybeAddWorker ps wid tasks w).ps = ps ∧
          (MaybeAddWorker ps wid tasks w).events = [] ∧
          spawned (MaybeAddWorker ps wid tasks w).events = []) ∧
      ((MaybeAddWorker ps wid tasks w).ok = true →
        (MaybeAddWorker ps wid tasks w).ps.workers.lookup wid = some w ∧
          (∀ other, other ≠ wid →
            (MaybeAddWorker ps wid tasks w).ps.workers.lookup other
              = ps.workers.lookup other) ∧
          (MaybeAddWorker ps wid tasks w).ps.postType = ps.postType ∧
          spawned (MaybeAddWorker ps wid tasks w).events = [(wid, w)]) := by
  by_cases h : ps.postType ∈ tasks
  · rw [MaybeAddWorker, if_pos h]
    refine ⟨⟨fun _ => h, fun _ => rfl⟩, ?_, ?_⟩
    · intro hf
      cases hf
    · intro _
      refine ⟨AList.lookup_insert _, ?_, rfl, rfl⟩
      intro other hne
      exact AList.lookup_insert_ne hne
  · rw [MaybeAddWorker, if_neg h]
    refine ⟨⟨?_, fun hm => absurd hm h⟩, fun _ => ⟨rfl, rfl, rfl⟩, ?_⟩
    · intro hf
      cases hf
    · intro hf
      cases hf

theorem canSchedLoop_iff (l : List (Sigma fun _ : WorkerID => workerHandle)) :
    canSchedLoop l = true ↔ ∃ e ∈ l, e.2.enabled = true := by
  induction l with
  | nil => simp [canSchedLoop]
  | cons e rest ih =>
    obtain ⟨wid, w⟩ := e
    simp only [canSchedLoop, List.mem_cons, exists_eq_or_imp]
    by_cases hw : w.enabled = true
    · simp [hw]
    · simp [hw, ih]

/-- C7: `CanSched` returns true exactly when the worker set is non-empty and
some registered handle has `enabled = true`, and it leaves the scheduler as it
found it. -/
theorem CanSched_spec (ps : poStScheduler) :
    ((CanSched ps).1 = true ↔
        ps.workers.entries ≠ [] ∧
          ∃ wid w, ps.workers.lookup wid = some w ∧ w.enabled = true) ∧
      (CanSched ps).2 = ps := by
  unfold CanSched
  by_cases h : ps.workers.entries = []
  · simp [h]
  · rw [entries_length_ne_zero h]
    refine ⟨?_, rfl⟩
    simp only [Bool.false_eq_true, if_false, canSchedLoop_iff, ne_eq, h, not_false_eq_true,
      true_and]
    constructor
    · rintro ⟨⟨wid, w⟩, he, hen⟩
      exact ⟨wid, w, AList.mem_lookup_iff.mpr he, hen⟩
    · rintro ⟨wid, w, hl, hen⟩
      exact ⟨⟨wid, w⟩, AList.mem_lookup_iff.mp hl, hen⟩

theorem delWorker_lookup_self (ps : poStScheduler) (wid : WorkerID) :
    (delWorker ps wid).2.workers.lookup wid = none := by
  unfold delWorker
  cases h : ps.workers.lookup wid with
  | none => exact h
  | some wh => exact AList.lookup_erase wid ps.workers

theorem delWorker_lookup_other (ps : poStScheduler) (wid other : WorkerID)
    (hne : other ≠ wid) :
    (delWorker ps wid).2.workers.lookup other = ps.workers.lookup other := by
  unfold delWorker
  cases h : ps.workers.lookup wid with
  | none => rfl
  | some wh => exact AList.lookup_erase_ne hne

theorem delWorker_postType (ps : poStScheduler) (wid : WorkerID) :
    (delWorker ps wid).2.postType = ps.postType := by
  unfold delWorker
  cases h : ps.workers.lookup wid <;> rfl

/-- C8: a monitor whose probe succeeds with a session id other than the
registered one takes the exit path; afterwards that id is absent and every
other id is looked up to the same handle as before.  `delWorker` returns what
the map held under the id, leaves the id absent and every other id as it was,
and changes nothing when the id was absent. -/
theorem watch_mismatch_removes_only_that_worker (ps : poStScheduler) (wid : WorkerID) :
    (∀ curSes sig, curSes ≠ wid →
      ∃ s, watchStep ps wid MonitorState.probing { probe := Probe.session curSes, signal := sig }
          = some s ∧
        s.next = MonitorState.terminated ∧
        s.events = [Event.closeClosed wid] ∧
        s.ps.workers.lookup wid = none ∧
        (∀ other, other ≠ wid → s.ps.workers.lookup other = ps.workers.lookup other) ∧
        s.ps.postType = ps.postType) ∧
      (delWorker ps wid).1 = ps.workers.lookup wid ∧
      (delWorker ps wid).2.workers.lookup wid = none ∧
      (∀ other, other ≠ wid →
        (delWorker ps wid).2.workers.lookup other = ps.workers.lookup other) ∧
      (ps.workers.lookup wid = none → (delWorker ps wid).2 = ps) := by
  refine ⟨?_, ?_, delWorker_lookup_self ps wid,
    fun other hne => delWorker_lookup_other ps wid other hne, ?_⟩
  · intro curSes sig hne
    refine ⟨watchExit ps wid, ?_, rfl, rfl, delWorker_lookup_self ps wid,
      fun other ho => delWorker_lookup_other ps wid other ho, delWorker_postType ps wid⟩
    simp [watchStep, hne]
  · unfold delWorker
    cases h : ps.workers.lookup wid <;> rfl
  · intro h
    unfold delWorker
    rw [h]

/-- Removing worker 1 of two returns its handle and leaves worker 2 as it was. -/
theorem watch_mismatch_removes_only_that_worker_witness :
    (delWorker (schedulerOf [(1, idleHandle 10 4 true), (2, idleHandle 11 4 false)]) 1).1
        = some (idleHandle 10 4 true) ∧
      (delWorker (schedulerOf [(1, idleHandle 10 4 true), (2, idleHandle 11 4 false)]) 1).2.workers.lookup 2
        = (schedulerOf [(1, idleHandle 10 4 true), (2, idleHandle 11 4 false)]).workers.lookup 2 :=
  ⟨by decide,
    (watch_mismatch_removes_only_that_worker
      (schedulerOf [(1, idleHandle 10 4 true), (2, idleHandle 11 4 false)]) 1).2.2.2.1 2
      (by decide)⟩

theorem setEnabled_of_registered (ps : poStScheduler) (wid : WorkerID) (w : workerHandle)
    (b : Bool) (h : ps.workers.lookup wid = some w) :
    setEnabled ps wid b
      = some { ps with workers := ps.workers.insert wid { w with enabled := b } } := by
  simp [setEnabled, h]

theorem setEnabled_lookup_other (ps ps1 : poStScheduler) (wid other : WorkerID) (b : Bool)
    (h : setEnabled ps wid b = some ps1) (hne : other ≠ wid) :
    ps1.workers.lookup other = ps.workers.lookup other := by
  unfold setEnabled at h
  cases hl : ps.workers.lookup wid with
  | none =>
    rw [hl] at h
    cases h
  | some w =>
    rw [hl] at h
    simp only [Option.some.injEq] at h
    subst h
    exact AList.lookup_insert_ne hne

theorem watchStep_lookup_other (ps : poStScheduler) (wid other : WorkerID)
    (st : MonitorState) (inp : MonitorInput) (s : MonitorStep)
    (h : watchStep ps wid st inp = some s) (hne : other ≠ wid) :
    s.ps.workers.lookup other = ps.workers.lookup other := by
  cases st with
  | probing =>
    simp only [watchStep] at h
    cases hp : inp.probe with
    | failed =>
      rw [hp] at h
      simp only [disable, Option.map_eq_some'] at h
      obtain ⟨ps1, h1, h2⟩ := h
      subst h2
      exact setEnabled_lookup_other ps ps1 wid other false h1 hne
    | session curSes =>
      rw [hp] at h
      simp only at h
      split at h
      · simp only [Option.some.injEq] at h
        subst h
        exact delWorker_lookup_other ps wid other hne
      · simp only [enable, Option.map_eq_some'] at h
        obtain ⟨ps1, h1, h2⟩ := h
        subst h2
        exact setEnabled_lookup_other ps ps1 wid other true h1 hne
  | selecting =>
    simp only [watchStep] at h
    cases hs : inp.signal with
    | tick =>
      rw [hs] at h
      simp only [Option.some.injEq] at h
      subst h
      rfl
    | closing =>
      rw [hs] at h
      simp only [Option.some.injEq] at h
      subst h
      exact delWorker_lookup_other ps wid other hne
  | terminated =>
    simp only [watchStep, Option.some.injEq] at h
    subst h
    rfl

theorem watch_terminated (wid : WorkerID) (inputs : List MonitorInput) (ps : poStScheduler) :
    watch wid inputs MonitorState.terminated ps = some (MonitorState.terminated, ps) := by
  induction inputs with
  | nil => rfl
  | cons inp rest ih => simpa [watch, watchStep] using ih

/-- C10: for a registered id, a failed probe sets that worker's flag to false
and parks the monitor in its `select`, from where a tick leads back to probing
and the closing signal to the exit; a probe answering the registered id sets
the flag to true and probes again; a probe answering another id leads to
`terminated`.  `terminated` is absorbing and changes nothing.  No transition
changes what any other id is mapped to. -/
theorem watchStep_enabled_flag (ps : poStScheduler) (wid : WorkerID) (w : workerHandle)
    (hreg : ps.workers.lookup wid = some w) :
    (∀ sig, ∃ s,
        watchStep ps wid MonitorState.probing { probe := Probe.failed, signal := sig } = some s ∧
        s.next = MonitorState.selecting ∧
        s.ps.workers.lookup wid = some { w with enabled := false } ∧
        (∀ p, watchStep s.ps wid MonitorState.selecting { probe := p, signal := Signal.tick }
          = some { next := MonitorState.probing, ps := s.ps, events := [] }) ∧
        (∀ p, ∃ t,
          watchStep s.ps wid MonitorState.selecting { probe := p, signal := Signal.closing }
            = some t ∧
          t.next = MonitorState.terminated ∧ t.ps.workers.lookup wid = none)) ∧
      (∀ sig, ∃ s,
        watchStep ps wid MonitorState.probing { probe := Probe.session wid, signal := sig }
          = some s ∧
        s.next = MonitorState.probing ∧
        s.ps.workers.lookup wid = some { w with enabled := true }) ∧
      (∀ curSes sig, curSes ≠ wid → ∃ s,
        watchStep ps wid MonitorState.probing { probe := Probe.session curSes, signal := sig }
          = some s ∧
        s.next = MonitorState.terminated) ∧
      (∀ q inp, watchStep q wid MonitorState.terminated inp
        = some { next := MonitorState.terminated, ps := q, events := [] }) ∧
      (∀ q inputs, watch wid inputs MonitorState.terminated q
        = some (MonitorState.terminated, q)) ∧
      (∀ st inp s, watchStep ps wid st inp = some s →
        ∀ other, other ≠ wid → s.ps.workers.lookup other = ps.workers.lookup other) := by
  refine ⟨?_, ?_, ?_, fun _ _ => rfl, fun q inputs => watch_terminated wid inputs q,
    fun st inp s h other hne => watchStep_lookup_other ps wid other st inp s h hne⟩
  · intro sig
    refine ⟨{ next := MonitorState.selecting,
              ps := { ps with workers := ps.workers.insert wid { w with enabled := false } },
              events := [] }, ?_, rfl, AList.lookup_insert _, fun _ => rfl, ?_⟩
    · simp [watchStep, disable, setEnabled_of_registered ps wid w false hreg]
    · intro p
      exact ⟨watchExit _ wid, rfl, rfl, delWorker_lookup_self _ wid⟩
  · intro sig
    refine ⟨{ next := MonitorState.probing,
              ps := { ps with workers := ps.workers.insert wid { w with enabled := true } },
              events := [] }, ?_, rfl, AList.lookup_insert _⟩
    simp [watchStep, enable, setEnabled_of_registered ps wid w true hreg]
  · intro curSes sig hne
    exact ⟨watchExit ps wid, by simp [watchStep, hne], rfl⟩

/-- A failed probe on worker 1 of two clears its flag and parks the monitor. -/
theorem watchStep_enabled_flag_witness :
    (schedulerOf [(1, idleHandle 10 4 true), (2, idleHandle 11 4 true)]).workers.lookup 1
        = some (idleHandle 10 4 true) ∧
      ∃ s, watchStep (schedulerOf [(1, idleHandle 10 4 true), (2, idleHandle 11 4 true)]) 1
          MonitorState.probing { probe := Probe.failed, signal := Signal.tick } = some s ∧
        s.next = MonitorState.selecting ∧
        s.ps.workers.lookup 1 = some { idleHandle 10 4 true with enabled := false } :=
  ⟨by decide,
    match (watchStep_enabled_flag
      (schedulerOf [(1, idleHandle 10 4 true), (2, idleHandle 11 4 true)]) 1
      (idleHandle 10 4 true) (by decide)).1 Signal.tick with
    | ⟨s, h1, h2, h3, _⟩ => ⟨s, h1, h2, h3⟩⟩

/-- The drain at a concrete interleaving: while worker 2 is drained and times
out, the monitor of worker 1 returns; the `range` then finds worker 1 gone, so
there is one drain wait for two registered workers and worker 2 stays. -/
theorem schedClose_monitor_exits_in_other_wait :
    (schedClose (schedulerOf [(1, idleHandle 10 4 true), (2, idleHandle 11 4 true)])
        (fun i => i) [exitWindow 1 false]).2
        = [Event.closeClosing 2, Event.drainTimeout 2] ∧
      (schedClose (schedulerOf [(1, idleHandle 10 4 true), (2, idleHandle 11 4 true)])
        (fun i => i) [exitWindow 1 false]).1.workers.keys = [2] := by
  decide

theorem accepts_nil_of_subset (ext : Externals) (t : TaskType) (spt : RegisteredSealProof)
    (l l2 : List (Sigma fun _ : WorkerID => workerHandle)) (hsub : l2 ⊆ l)
    (h : accepts ext t spt l = []) : accepts ext t spt l2 = [] := by
  rw [List.eq_nil_iff_forall_not_mem] at h ⊢
  intro c hc
  obtain ⟨w, hw, hr⟩ := (mem_accepts ext t spt l2 c).mp hc
  exact h c ((mem_accepts ext t spt l c).mpr ⟨w, hsub hw, hr⟩)

theorem waitLoop_no_candidate (ext : Externals) (primary : Bool) (spt : RegisteredSealProof)
    (work : WorkerAction) (during : poStScheduler → poStScheduler) (wakes : List Wake)
    (ps : poStScheduler) (cs : List candidateWorker) :
    waitLoop ext primary spt work during wakes ps (false, cs)
      = waitLoop ext primary spt work during wakes ps (false, []) := by
  cases wakes <;> rfl

theorem waitLoop_stalled (ext : Externals) (spt : RegisteredSealProof)
    (work : WorkerAction) (during : poStScheduler → poStScheduler)
    (pre rest : List Wake) (ps : poStScheduler)
    (hpre : ∀ k, 1 ≤ k → k ≤ pre.length →
      accepts ext (afterWakes ps (pre.take k)).postType spt
        (afterWakes ps (pre.take k)).workers.entries = []) :
    waitLoop ext true spt work during (pre ++ rest) ps (false, [])
      = { status := (waitLoop ext true spt work during rest (afterWakes ps pre) (false, [])).status
          trace := List.replicate pre.length Event.condWait ++
            (waitLoop ext true spt work during rest (afterWakes ps pre) (false, [])).trace
          ps := (waitLoop ext true spt work during rest (afterWakes ps pre) (false, [])).ps } := by
  induction pre generalizing ps with
  | nil => rfl
  | cons wk pre ih =>
    have h1 := hpre 1 (le_refl 1) (by simp)
    simp only [List.take_succ_cons, List.take_zero, afterWakes, List.foldl_cons,
      List.foldl_nil] at h1
    have hih := ih (wk.update ps) (by
      intro k hk1 hk
      have := hpre (k + 1) (by omega) (by simpa using hk)
      simpa [afterWakes] using this)
    simp only [List.cons_append, waitLoop, if_true,
      readyWorkers_of_no_accepts ext (wk.update ps) spt wk.rnd h1]
    have hih2 : waitLoop ext true spt work during (pre.append rest) (wk.update ps) (false, [])
        = _ := hih
    rw [hih2]
    simp [afterWakes, List.replicate_succ]

theorem waits_replicate_append (n : Nat) (t : List Event) :
    waits (List.replicate n Event.condWait ++ t) = n + waits t := by
  simp [waits, List.count_append, List.count_replicate_self]

theorem invocations_replicate_append (n : Nat) (t : List Event) :
    invocations (List.replicate n Event.condWait ++ t) = invocations t := by
  induction n with
  | zero => rfl
  | succ n ih => simpa [List.replicate_succ, invocations] using ih

/-- C4 as amended: on a non-empty worker set in which the gate accepts no
registered worker, a primary `Schedule` does not return an error.  While the wake-ups it receives
bring no candidate it stays parked, with the action not invoked; once a
wake-up follows a `MaybeAddWorker` that registered a worker the gate accepts,
it invokes the action exactly once, against that worker, after one wait per
wake-up, and returns what the action returned. -/
theorem Schedule_primary_waits_for_worker (ext : Externals) (ps : poStScheduler)
    (spt : RegisteredSealProof) (work : WorkerAction) (rnd0 rndw : Nat → Nat)
    (during : poStScheduler → poStScheduler) (pre post : List Wake)
    (wid : WorkerID) (tasks : List TaskType) (w : workerHandle)
    (hne : ps.workers.entries ≠ [])
    (hpre : ∀ k, k ≤ pre.length →
      accepts ext (afterWakes ps (pre.take k)).postType spt
        (afterWakes ps (pre.take k)).workers.entries = [])
    (htask : (afterWakes ps pre).postType ∈ tasks)
    (hfit : ext.canHandleRequest w.active
      (ext.ResourceSpec w.info spt (afterWakes ps pre).postType) wid w.info = true) :
    (Schedule ext ps true spt work
        { rnd := rnd0, wakes := pre, during := during }).status = Status.parked ∧
      invocations (Schedule ext ps true spt work
        { rnd := rnd0, wakes := pre, during := during }).trace = [] ∧
      (Schedule ext ps true spt work
        { rnd := rnd0, wakes := pre ++ addWake wid tasks w rndw :: post,
          during := during }).status = Status.returned (work w.workerRpc) ∧
      waits (Schedule ext ps true spt work
        { rnd := rnd0, wakes := pre ++ addWake wid tasks w rndw :: post,
          during := during }).trace = pre.length + 1 ∧
      invocations (Schedule ext ps true spt work
        { rnd := rnd0, wakes := pre ++ addWake wid tasks w rndw :: post,
          during := during }).trace = [w.workerRpc] := by
  have h0 := hpre 0 (Nat.zero_le _)
  simp only [List.take_zero, afterWakes, List.foldl_nil] at h0
  have hstall := fun rest => waitLoop_stalled ext spt work during pre rest ps
    (fun k _ hk => hpre k hk)
  have hlast := hpre pre.length (le_refl _)
  rw [List.take_length] at hlast
  have hparked : waitLoop ext true spt work during [] (afterWakes ps pre) (false, [])
      = { status := Status.parked, trace := [Event.condWait], ps := afterWakes ps pre } := rfl
  have hadd : (MaybeAddWorker (afterWakes ps pre) wid tasks w).ps
      = { afterWakes ps pre with workers := (afterWakes ps pre).workers.insert wid w } := by
    simp [MaybeAddWorker, htask]
  have hcand : readyWorkers ext (MaybeAddWorker (afterWakes ps pre) wid tasks w).ps spt rndw
      = (true, [{ id := wid,
                  res := ext.ResourceSpec w.info spt (afterWakes ps pre).postType }]) := by
    have hrest : accepts ext (afterWakes ps pre).postType spt
        (List.kerase wid (afterWakes ps pre).workers.entries) = [] :=
      accepts_nil_of_subset ext _ spt _ _ (List.kerase_sublist wid _).subset hlast
    rw [hadd]
    simp only [readyWorkers, AList.insert_entries, accepts, hfit, if_true, hrest]
    rfl
  have hwoke : waitLoop ext true spt work during (addWake wid tasks w rndw :: post)
      (afterWakes ps pre) (false, [])
      = { status := Status.returned (work w.workerRpc)
          trace := [Event.condWait,
            Event.reserve wid (ext.ResourceSpec w.info spt (afterWakes ps pre).postType),
            Event.invoke w.workerRpc,
            Event.release wid (ext.ResourceSpec w.info spt (afterWakes ps pre).postType),
            Event.condBroadcast]
          ps := account (during (account (MaybeAddWorker (afterWakes ps pre) wid tasks w).ps
              wid (fun a => ext.add a w.info
                (ext.ResourceSpec w.info spt (afterWakes ps pre).postType))))
            wid (fun a => ext.free a w.info
              (ext.ResourceSpec w.info spt (afterWakes ps pre).postType)) } := by
    have hl : (MaybeAddWorker (afterWakes ps pre) wid tasks w).ps.workers.lookup wid
        = some w := by
      rw [hadd]
      exact AList.lookup_insert _
    simp only [waitLoop, addWake, if_true, hcand, dispatch, hl, withResources]
    rfl
  have hS : ∀ wakes, Schedule ext ps true spt work
      { rnd := rnd0, wakes := wakes, during := during }
      = waitLoop ext true spt work during wakes ps (false, []) := by
    intro wakes
    simp only [Schedule, entries_length_ne_zero hne, readyWorkers_of_no_accepts ext ps spt rnd0 h0]
    rfl
  refine ⟨?_, ?_, ?_, ?_, ?_⟩
  · rw [hS]
    have := hstall []
    rw [List.append_nil] at this
    rw [this, hparked]
  · rw [hS]
    have := hstall []
    rw [List.append_nil] at this
    rw [this, hparked, invocations_replicate_append]
    rfl
  · rw [hS, hstall, hwoke]
  · rw [hS, hstall, hwoke, waits_replicate_append]
    rfl
  · rw [hS, hstall, hwoke, invocations_replicate_append]
    rfl

/-- A worker without capacity is registered; one wake-up changes nothing, the
next follows the registration of an idle worker: two waits, then the action. -/
theorem Schedule_primary_waits_for_worker_witness :
    (schedulerOf [(1, idleHandle 10 0 true)]).workers.entries ≠ [] ∧
      (Schedule capacityGate (schedulerOf [(1, idleHandle 10 0 true)]) true 0
        (fun _ => some (GoError.other 3))
        { rnd := fun _ => 0, wakes := [{ update := id, rnd := fun _ => 0 }],
          during := id }).status = Status.parked ∧
      (Schedule capacityGate (schedulerOf [(1, idleHandle 10 0 true)]) true 0
        (fun _ => some (GoError.other 3))
        { rnd := fun _ => 0
          wakes := [{ update := id, rnd := fun _ => 0 }] ++
            addWake 2 [7] (idleHandle 11 4 true) (fun _ => 0) :: []
          during := id }).status = Status.returned (some (GoError.other 3)) ∧
      waits (Schedule capacityGate (schedulerOf [(1, idleHandle 10 0 true)]) true 0
        (fun _ => some (GoError.other 3))
        { rnd := fun _ => 0
          wakes := [{ update := id, rnd := fun _ => 0 }] ++
            addWake 2 [7] (idleHandle 11 4 true) (fun _ => 0) :: []
          during := id }).trace = 2 :=
  have h := Schedule_primary_waits_for_worker capacityGate
    (schedulerOf [(1, idleHandle 10 0 true)]) 0 (fun _ => some (GoError.other 3))
    (fun _ => 0) (fun _ => 0) id [{ update := id, rnd := fun _ => 0 }] [] 2 [7]
    (idleHandle 11 4 true) (by decide)
    (by
      intro k hk
      have hk2 : k = 0 ∨ k = 1 := by
        simp only [List.length_singleton] at hk
        omega
      rcases hk2 with h | h <;> subst h <;> decide)
    (by decide) (by decide)
  ⟨by decide, h.1, h.2.2.1, h.2.2.2.1⟩

/-- C4, refuted as stated: on the empty worker set a primary `Schedule` returns
the error at once, without waiting, although a `MaybeAddWorker` of an eligible
worker stands ready to wake it. -/
theorem Schedule_primary_empty_returns_error :
    (newPoStScheduler 7).workers.keys = [] ∧
      (Schedule capacityGate (newPoStScheduler 7) true 0 (fun _ => none)
        { rnd := fun _ => 0
          wakes := [addWake 1 [7] (idleHandle 10 4 true) (fun _ => 0)]
          during := id }).status
        = Status.returned (some (GoError.cantFindPostWorker 7)) ∧
      waits (Schedule capacityGate (newPoStScheduler 7) true 0 (fun _ => none)
        { rnd := fun _ => 0
          wakes := [addWake 1 [7] (idleHandle 10 4 true) (fun _ => 0)]
          during := id }).trace = 0 ∧
      invocations (Schedule capacityGate (newPoStScheduler 7) true 0 (fun _ => none)
        { rnd := fun _ => 0
          wakes := [addWake 1 [7] (idleHandle 10 4 true) (fun _ => 0)]
          during := id }).trace = [] := by
  decide

end PoSt
